import Mathlib

/-!
Shallow embedding of the TripCode blockchain microservice (NestJS/TypeScript)
and proofs about its specification claims.

Conventions of the embedding:
* JavaScript numbers are modelled as exact rationals (`Rat`); the one place
  where IEEE-754 binary64 rounding is decisive (the gas-debit arithmetic) is
  modelled separately and exactly, over the integers, via `isNearestFP`.
* JavaScript objects used as string-keyed dictionaries are association lists.
* Thrown exceptions are `Except` errors; `try/catch` blocks that convert an
  exception into a `success:false` result are modelled by returning the
  failure value directly.
* The ECIES layer (ECDH + HKDF + AES-256-GCM) of `CryptoUtils` is modelled
  symbolically: an envelope records the recipient key identity and the exact
  plaintext serialization produced by the source; decryption with the matching
  key recovers that serialization, decryption with any other key fails.  The
  serialization / JSON-parsing logic around the cipher is transcribed from the
  source (`CryptoUtils.encryptData` / `CryptoUtils.decryptData`).
* `JSON.stringify` / `JSON.parse` are modelled on the fragment of JSON values
  consisting of `null`, booleans, integers and escape-free strings
  (`JsData`); the parser additionally recognises exactly the first characters
  that can begin a JSON value, which is what the fallback theorems rely on.
-/

deriving instance DecidableEq for Except

namespace TripCode

/-! ## The modelled data domain: a fragment of JSON values -/

/-- The fragment of JavaScript values the embedding models as transaction
payloads: `null`, booleans, integer numbers and (escape-free) strings. -/
inductive JsData where
  | jnull : JsData
  | jbool : Bool → JsData
  | jnum : Int → JsData
  | jstr : String → JsData
deriving DecidableEq, Repr

/-- JSON whitespace characters (space, tab, line feed, carriage return). -/
def isWsCh (c : Char) : Bool :=
  c = ' ' || c = '\t' || c = '\n' || c = '\r'

/-- Decimal digit test on the character code. -/
def isDigitCh (c : Char) : Bool :=
  decide (48 ≤ c.toNat) && decide (c.toNat ≤ 57)

/-- The decimal digit character for `d < 10`. -/
def digCh (d : Nat) : Char :=
  match d with
  | 0 => '0' | 1 => '1' | 2 => '2' | 3 => '3' | 4 => '4'
  | 5 => '5' | 6 => '6' | 7 => '7' | 8 => '8' | _ => '9'

/-- Numeric value of a decimal digit character. -/
def digVal (c : Char) : Nat := c.toNat - 48

/-- Value of a most-significant-first list of decimal digit characters. -/
def parseNat (l : List Char) : Nat :=
  l.foldl (fun a c => 10 * a + digVal c) 0

/-- Least-significant-first decimal digits of `n`, with explicit fuel so that
the definition is structural (the fuel only needs to dominate the number of
digits; `n` itself always suffices). -/
def natToRevDigits (fuel : Nat) (n : Nat) : List Char :=
  match fuel with
  | 0 => []
  | fuel + 1 => if n = 0 then [] else digCh (n % 10) :: natToRevDigits fuel (n / 10)

/-- Decimal rendering of a natural number, as produced by JavaScript
`String(n)` for non-negative integral numbers. -/
def natToStr (n : Nat) : String :=
  if n = 0 then "0" else ⟨(natToRevDigits n n).reverse⟩

/-- Decimal rendering of an integer, as produced by JavaScript `String(n)`
for integral numbers. -/
def intToStr (n : Int) : String :=
  if n < 0 then "-" ++ natToStr n.natAbs else natToStr n.natAbs

/-- Model of `JSON.stringify` on the modelled fragment (strings are escape-free, so
quoting needs no escapes). -/
def stringify (d : JsData) : String :=
  match d with
  | .jnull => "null"
  | .jbool true => "true"
  | .jbool false => "false"
  | .jnum n => intToStr n
  | .jstr s => "\"" ++ s ++ "\""

/-- True when the list consists of JSON whitespace only. -/
def allWs (l : List Char) : Bool := l.all isWsCh

/-- Body of a JSON string literal: the opening quote has been consumed; scan
to the closing quote, rejecting escapes (outside the modelled fragment) and
any non-whitespace trailing text. -/
def parseStrBody : List Char → List Char → Option JsData
  | [], _ => none
  | c :: rest, acc =>
    if c = '"' then (if allWs rest then some (.jstr ⟨acc.reverse⟩) else none)
    else if c = '\\' then none
    else parseStrBody rest (c :: acc)

/-- A non-negative JSON number starting at the head of the list: maximal run
of digits, then only whitespace may follow. -/
def parsePosNum (l : List Char) : Option JsData :=
  if allWs (l.dropWhile isDigitCh) then some (.jnum (parseNat (l.takeWhile isDigitCh) : Int))
  else none

/-- A negative JSON number: the sign has been consumed; at least one digit
must follow, then only whitespace. -/
def parseNegNum (l : List Char) : Option JsData :=
  if l.takeWhile isDigitCh = [] then none
  else if allWs (l.dropWhile isDigitCh) then
    some (.jnum (-(parseNat (l.takeWhile isDigitCh) : Int)))
  else none

/-- A JSON value after leading whitespace has been removed, on the modelled
fragment.  The first character dispatches between the fragment's value
forms; a character that cannot begin any JSON value is rejected, as
`JSON.parse` rejects it.  Object and array openers (code points 123 and 91)
are outside the modelled fragment: `parseVal` returns `none` for them even
though real `JSON.parse` may succeed, so no theorem below relies on the
parser's verdict for such inputs (`notJsonStart`, the certificate the
round-trip theorem uses for strings, excludes them). -/
def parseVal (l : List Char) : Option JsData :=
  match l with
  | [] => none
  | c :: rest =>
    if c = 'n' then
      (if rest.take 3 = ['u', 'l', 'l'] && allWs (rest.drop 3) then some .jnull else none)
    else if c = 't' then
      (if rest.take 3 = ['r', 'u', 'e'] && allWs (rest.drop 3) then some (.jbool true) else none)
    else if c = 'f' then
      (if rest.take 4 = ['a', 'l', 's', 'e'] && allWs (rest.drop 4) then some (.jbool false) else none)
    else if c = '"' then parseStrBody rest []
    else if c = '-' then parseNegNum rest
    else if isDigitCh c then parsePosNum (c :: rest)
    else none

/-- Model of `JSON.parse` on the modelled fragment: `none` models a thrown
`SyntaxError`.  Faithful to JavaScript on the fragment; conservatively partial
outside it (objects, arrays, fractional numbers and escaped strings are not
modelled, and no theorem below quantifies over them). -/
def jsonParse (s : String) : Option JsData :=
  parseVal (s.toList.dropWhile isWsCh)

/-- A sound, checkable certificate that `JSON.parse` must throw on `s`:
after leading whitespace the string is empty, or starts with a character
that cannot begin any JSON value.  A JSON text's first non-whitespace
character is one of `n` (null), `t`/`f` (booleans), `"` (string), `-` or a
digit (number), the left curly brace (code point 123, object) or the left
square bracket (code point 91, array); every other first character makes
real `JSON.parse` throw a `SyntaxError`.  Strings led by an object or array
opener are therefore NOT certified here, since `JSON.parse` may accept
them. -/
def notJsonStart (s : String) : Bool :=
  match s.toList.dropWhile isWsCh with
  | [] => true
  | c :: _ =>
    !(c = 'n' || c = 't' || c = 'f' || c = '"' || c = '-' || isDigitCh c
      || c.toNat = 123 || c.toNat = 91)

/-! ## Round-trip facts about the modelled JSON fragment -/

/-- A decimal digit character is never JSON whitespace. -/
theorem ws_false_of_digit (c : Char) (h : isDigitCh c = true) : isWsCh c = false := by
  have h32 : c ≠ ' ' := by rintro rfl; exact absurd h (by decide)
  have h9 : c ≠ '\t' := by rintro rfl; exact absurd h (by decide)
  have h10 : c ≠ '\n' := by rintro rfl; exact absurd h (by decide)
  have h13 : c ≠ '\r' := by rintro rfl; exact absurd h (by decide)
  simp [isWsCh, h32, h9, h10, h13]

/-- Reading back the digit character of `d < 10` gives `d`. -/
theorem digVal_digCh (d : Nat) (h : d < 10) : digVal (digCh d) = d := by
  interval_cases d <;> rfl

/-- Digit characters produced by `digCh` pass the digit test. -/
theorem isDigitCh_digCh (d : Nat) (h : d < 10) : isDigitCh (digCh d) = true := by
  interval_cases d <;> rfl

/-- Every character emitted by `natToRevDigits` is a decimal digit. -/
theorem natToRevDigits_digits (fuel : Nat) :
    ∀ n c, c ∈ natToRevDigits fuel n → isDigitCh c = true := by
  induction fuel with
  | zero => intro n c hc; simp [natToRevDigits] at hc
  | succ f ih =>
    intro n c hc
    by_cases h0 : n = 0
    · simp [natToRevDigits, h0] at hc
    · simp only [natToRevDigits, if_neg h0, List.mem_cons] at hc
      rcases hc with hc | hc
      · exact hc ▸ isDigitCh_digCh _ (Nat.mod_lt _ (by omega))
      · exact ih _ _ hc

/-- Appending one digit multiplies the parsed value by ten and adds it. -/
theorem parseNat_append (l : List Char) (c : Char) :
    parseNat (l ++ [c]) = 10 * parseNat l + digVal c := by
  simp [parseNat, List.foldl_append]

/-- Parsing the (reversed, so most-significant-first) digits of `n` yields
`n`, provided the fuel dominates `n`. -/
theorem parseNat_natToRevDigits (fuel : Nat) :
    ∀ n, n ≤ fuel → parseNat ((natToRevDigits fuel n).reverse) = n := by
  induction fuel with
  | zero => intro n h; interval_cases n; rfl
  | succ f ih =>
    intro n h
    by_cases h0 : n = 0
    · subst h0; rfl
    · have hdiv : n / 10 < n := Nat.div_lt_self (by omega) (by omega)
      simp only [natToRevDigits, if_neg h0, List.reverse_cons, parseNat_append]
      rw [ih (n / 10) (by omega), digVal_digCh _ (Nat.mod_lt _ (by omega))]
      omega

/-- The digit list of a positive `n`, as embedded in `natToStr`. -/
theorem natToStr_pos (n : Nat) (h0 : n ≠ 0) :
    natToStr n = ⟨(natToRevDigits n n).reverse⟩ := by
  simp [natToStr, h0]

/-- The digit list of a positive `n` is nonempty. -/
theorem natToRevDigits_ne_nil (n : Nat) (h0 : n ≠ 0) :
    natToRevDigits n n ≠ [] := by
  cases n with
  | zero => exact absurd rfl h0
  | succ m => simp [natToRevDigits]

/-- Dropping whitespace from an all-digit list is the identity. -/
theorem dropWhile_ws_of_digits (l : List Char) (h : ∀ c ∈ l, isDigitCh c = true) :
    l.dropWhile isWsCh = l := by
  cases l with
  | nil => rfl
  | cons c t => simp [List.dropWhile, ws_false_of_digit c (h c (by simp))]

/-- Running `parseVal` on a list headed by a digit runs the number branch. -/
theorem parseVal_digits (l : List Char) (hne : l ≠ [])
    (h : ∀ c ∈ l, isDigitCh c = true) : parseVal l = parsePosNum l := by
  cases l with
  | nil => exact absurd rfl hne
  | cons c t =>
    have hc : isDigitCh c = true := h c (by simp)
    have hn : c ≠ 'n' := by rintro rfl; exact absurd hc (by decide)
    have ht : c ≠ 't' := by rintro rfl; exact absurd hc (by decide)
    have hf : c ≠ 'f' := by rintro rfl; exact absurd hc (by decide)
    have hq : c ≠ '"' := by rintro rfl; exact absurd hc (by decide)
    have hm : c ≠ '-' := by rintro rfl; exact absurd hc (by decide)
    simp [parseVal, hn, ht, hf, hq, hm, hc]

/-- The number branch accepts a pure digit list and returns its value. -/
theorem parsePosNum_digits (l : List Char) (h : ∀ c ∈ l, isDigitCh c = true) :
    parsePosNum l = some (.jnum (parseNat l : Int)) := by
  have htake : l.takeWhile isDigitCh = l := List.takeWhile_eq_self_iff.mpr h
  have hdrop : l.dropWhile isDigitCh = [] := List.dropWhile_eq_nil_iff.mpr h
  simp [parsePosNum, htake, hdrop, allWs]

/-- Parsing the decimal rendering of a natural number returns that number. -/
theorem jsonParse_natToStr (n : Nat) :
    jsonParse (natToStr n) = some (.jnum (n : Int)) := by
  by_cases h0 : n = 0
  · subst h0; rfl
  · have hd : ∀ c ∈ (natToRevDigits n n).reverse, isDigitCh c = true := by
      intro c hc
      exact natToRevDigits_digits n n c (List.mem_reverse.mp hc)
    have hne : (natToRevDigits n n).reverse ≠ [] := by
      simp [natToRevDigits_ne_nil n h0]
    rw [natToStr_pos n h0]
    show parseVal (((natToRevDigits n n).reverse : List Char).dropWhile isWsCh) = _
    rw [dropWhile_ws_of_digits _ hd, parseVal_digits _ hne hd, parsePosNum_digits _ hd,
      parseNat_natToRevDigits n n (le_refl n)]

/-- Parsing the decimal rendering of an integer returns that integer. -/
theorem jsonParse_intToStr (n : Int) : jsonParse (intToStr n) = some (.jnum n) := by
  by_cases hneg : n < 0
  · have hne : natToRevDigits n.natAbs n.natAbs ≠ [] :=
      natToRevDigits_ne_nil _ (by omega)
    have hd : ∀ c ∈ (natToRevDigits n.natAbs n.natAbs).reverse, isDigitCh c = true := by
      intro c hc
      exact natToRevDigits_digits _ _ c (List.mem_reverse.mp hc)
    have habs : n.natAbs ≠ 0 := by omega
    have hner : (natToRevDigits n.natAbs n.natAbs).reverse ≠ [] := by
      simp [hne]
    have hlist : (intToStr n).toList = '-' :: (natToRevDigits n.natAbs n.natAbs).reverse := by
      simp [intToStr, if_pos hneg, natToStr_pos _ habs]
    have htake := List.takeWhile_eq_self_iff.mpr hd
    have hdrop := List.dropWhile_eq_nil_iff.mpr hd
    unfold jsonParse
    rw [hlist]
    show parseVal ((('-' :: (natToRevDigits n.natAbs n.natAbs).reverse) : List Char).dropWhile isWsCh)
      = some (.jnum n)
    rw [List.dropWhile]
    simp only [show isWsCh '-' = false from rfl]
    show parseVal ('-' :: (natToRevDigits n.natAbs n.natAbs).reverse) = some (.jnum n)
    rw [show parseVal ('-' :: (natToRevDigits n.natAbs n.natAbs).reverse)
        = parseNegNum ((natToRevDigits n.natAbs n.natAbs).reverse) from rfl]
    unfold parseNegNum
    rw [htake, hdrop, if_neg hner]
    simp only [allWs, List.all_nil, if_pos rfl]
    rw [parseNat_natToRevDigits _ _ (le_refl _)]
    have hval : -((n.natAbs : Nat) : Int) = n := by omega
    rw [hval]
    simp
  · have hnn : 0 ≤ n := by omega
    have : intToStr n = natToStr n.natAbs := by simp [intToStr, hneg]
    rw [this, jsonParse_natToStr]
    congr 2
    omega

/-- Parsing the output of `stringify` recovers the value, for every
non-string value of the fragment. -/
theorem jsonParse_stringify (d : JsData) (h : ∀ s, d ≠ .jstr s) :
    jsonParse (stringify d) = some d := by
  cases d with
  | jnull => rfl
  | jbool b => cases b <;> rfl
  | jnum n => exact jsonParse_intToStr n
  | jstr s => exact absurd rfl (h s)

/-- When `notJsonStart` certifies the string, `jsonParse` rejects it. -/
theorem jsonParse_of_notJsonStart (s : String) (h : notJsonStart s = true) :
    jsonParse s = none := by
  unfold notJsonStart at h
  unfold jsonParse
  cases hl : s.toList.dropWhile isWsCh with
  | nil => rfl
  | cons c t =>
    rw [hl] at h
    simp only [Bool.not_eq_eq_eq_not, Bool.not_true, Bool.or_eq_false_iff,
      decide_eq_false_iff_not] at h
    obtain ⟨⟨⟨⟨⟨⟨⟨hn, ht⟩, hf⟩, hq⟩, hm⟩, hdig⟩, hbrace⟩, hbrk⟩ := h
    simp [parseVal, hn, ht, hf, hq, hm, hdig]

/-! ## Crypto envelope (`handlersChain/CryptoUtils`) -/

/-- Symbolic model of the ECIES envelope produced by
`CryptoUtils.encryptData`: the base64 blob
`ephemeralPublicKey ‖ iv ‖ authTag ‖ ciphertext` is abstracted to the
recipient key identity together with the exact plaintext serialization that
the source feeds to the cipher (the AEAD layer is treated as a perfect
cipher: matching key recovers the serialization, any other key fails). -/
structure Envelope where
  recipient : Nat
  payload : String
deriving DecidableEq, Repr

/-- Source `CryptoUtils.encryptData(data, publicKey)`: a string is encrypted as-is,
anything else is serialized with `JSON.stringify` first
(`typeof data === 'string' ? data : JSON.stringify(data)`). -/
def encryptData (data : JsData) (recipientKey : Nat) : Envelope :=
  { recipient := recipientKey
    payload :=
      match data with
      | .jstr s => s
      | d => stringify d }

/-- Source `CryptoUtils.decryptData(encryptedData, privateKey)`: with the matching
key, recover the plaintext string, then
`try { return JSON.parse(decryptedString) } catch { return decryptedString }`;
with any other key the authentication tag fails and an error is thrown. -/
def decryptData (env : Envelope) (privateKey : Nat) : Except String JsData :=
  if env.recipient = privateKey then
    match jsonParse env.payload with
    | some v => .ok v
    | none => .ok (.jstr env.payload)
  else .error "Fallo al descifrar los datos"

/-- Plaintexts for which the decrypt-side `JSON.parse` fallback is the
identity: every non-string value of the fragment, and every string whose
first non-whitespace character cannot begin a JSON value — the
`notJsonStart` certificate, under which real `JSON.parse` necessarily
throws.  Strings that `JSON.parse` may accept, including ones led by an
object or array opener, are not covered. -/
def roundtripSafe : JsData → Prop
  | .jstr s => notJsonStart s = true
  | _ => True

/-! ## Identity balances (`handlersChain/User`) -/

/-- Association-list lookup, modelling access to a string-keyed
JavaScript object. -/
def alookup {α : Type} : List (String × α) → String → Option α
  | [], _ => none
  | (k, v) :: t, key => if k = key then some v else alookup t key

/-- Association-list overwrite-or-insert, modelling assignment to a
string-keyed JavaScript object. -/
def aset {α : Type} : List (String × α) → String → α → List (String × α)
  | [], key, v => [(key, v)]
  | (k0, v0) :: t, key, v => if k0 = key then (key, v) :: t else (k0, v0) :: aset t key v

theorem alookup_aset_self {α : Type} (l : List (String × α)) (key : String) (v : α) :
    alookup (aset l key v) key = some v := by
  induction l with
  | nil => simp [aset, alookup]
  | cons p t ih =>
    obtain ⟨k0, v0⟩ := p
    by_cases hk : k0 = key
    · simp [aset, hk, alookup]
    · simp [aset, hk, alookup, ih]

theorem alookup_aset_other {α : Type} (l : List (String × α)) (key k2 : String) (v : α)
    (h : k2 ≠ key) : alookup (aset l key v) k2 = alookup l k2 := by
  have hne : key ≠ k2 := fun he => h he.symm
  induction l with
  | nil => simp [aset, alookup, hne]
  | cons p t ih =>
    obtain ⟨k0, v0⟩ := p
    by_cases hk : k0 = key
    · subst hk
      simp [aset, alookup, hne]
    · simp [aset, hk, alookup, ih]

/-- The in-memory identity of `handlersChain/User`: the account fingerprint,
the exported public key (PEM serialization, kept abstract as a string), the
symbolic key-pair identity for the envelope model, and the per-currency
balances. -/
structure User where
  accountHash : String
  publicKeyPem : String
  keyId : Nat
  balances : List (String × Rat)
deriving DecidableEq, Repr

/-- Source `User.getBalance(currency)`: `this.balances[currency] || 0`. -/
def getBalance (u : User) (currency : String) : Rat :=
  (alookup u.balances currency).getD 0

/-- Source `User.updateBalance(currency, amount)`:
`if (!this.balances[currency]) this.balances[currency] = 0;`
`this.balances[currency] += amount` — a falsy entry (absent or zero) is
initialised to zero, then the signed amount is added unconditionally. -/
def updateBalance (u : User) (currency : String) (amount : Rat) : User :=
  let current : Rat :=
    match alookup u.balances currency with
    | none => 0
    | some b => if b = 0 then 0 else b
  { u with balances := aset u.balances currency (current + amount) }

theorem getBalance_updateBalance (u : User) (currency : String) (amount : Rat) :
    getBalance (updateBalance u currency amount) currency = getBalance u currency + amount := by
  unfold getBalance updateBalance
  cases hb : alookup u.balances currency with
  | none => simp [alookup_aset_self, hb]
  | some b =>
    by_cases h0 : b = 0
    · simp [alookup_aset_self, hb, h0]
    · simp [alookup_aset_self, hb, h0]

/-! ## Ledger entities (`types/chainsType`, `handlersChain/Block`) -/

/-- A transaction (`ITransaction`): the encrypted payload is the envelope
produced by `CryptoUtils.encryptData` (a base64 string in the source,
represented here by its decoded `Envelope`). -/
structure Transaction where
  processId : String
  description : String
  data : Envelope
  timestamp : String
  signature : String
deriving DecidableEq, Repr

/-- A block (`IBlock` / `handlersChain/Block`). -/
structure Block where
  index : Nat
  timestamp : String
  transactions : List Transaction
  previousHash : String
  hash : String
  nonce : Nat
  signature : String
  validator : String
deriving DecidableEq, Repr

/-- Deterministic serialization of a transaction, used by the modelled
block hash. -/
def txSerial (t : Transaction) : String :=
  t.processId ++ "," ++ t.description ++ "," ++ natToStr t.data.recipient ++ ","
    ++ t.data.payload ++ "," ++ t.timestamp ++ "," ++ t.signature

/-- Modelled from the spec: `Block.calculateHash()` of `handlersChain/Block`
(the Block class itself is not among the source files; only its callers and
its interface `IBlock` are).  Spec §4.3: a pure function of
`(index, timestamp, transactions, previousHash, nonce)` over a deterministic
serialization; the cryptographic hash is modelled by the (injective)
serialization itself. -/
def calculateHash (b : Block) : String :=
  "H(" ++ natToStr b.index ++ "|" ++ b.timestamp ++ "|"
    ++ String.join (b.transactions.map txSerial) ++ "|" ++ b.previousHash ++ "|"
    ++ natToStr b.nonce ++ ")"

/-- Modelled from the spec: the `Block` constructor
`new Block(index, timestamp, transactions, previousHash, signature)` of
`handlersChain/Block` (class not among the source files).  Spec §3: nonce
starts at zero, no validator, and `hash` holds the block's computed hash. -/
def mkBlock (index : Nat) (timestamp : String) (txs : List Transaction)
    (previousHash : String) (signature : String) : Block :=
  let b0 : Block :=
    { index := index, timestamp := timestamp, transactions := txs,
      previousHash := previousHash, hash := "", nonce := 0,
      signature := signature, validator := "" }
  { b0 with hash := calculateHash b0 }

/-- Modelled from the spec: `Block.forgeBlock(validator)` of
`handlersChain/Block` (class not among the source files).  Spec §4.4 (PoS
mode): the chosen validator's address is written into `block.validator` and
`hash` is computed once, with no search. -/
def forgeBlock (b : Block) (v : String) : Block :=
  let b1 : Block := { b with validator := v }
  { b1 with hash := calculateHash b1 }

/-! ## Consensus engine (`src/consensus/consensus.service.ts`) -/

/-- The consensus algorithm selector. -/
inductive Algo where
  | PoW : Algo
  | PoS : Algo
deriving DecidableEq, Repr

/-- The three configuration constants of `ConsensusService`. -/
structure ConsensusCfg where
  algorithm : Algo
  difficulty : Nat
  minStake : Rat

/-- The values hard-coded in the source: `difficulty = 2`,
`consensusAlgorithm = 'PoS'`, `minStake = 1000`. -/
def defaultCfg : ConsensusCfg :=
  { algorithm := Algo.PoS, difficulty := 2, minStake := 1000 }

/-- The string `'0'.repeat(n)`. -/
def zeros (n : Nat) : String := ⟨List.replicate n '0'⟩

/-- The account registry of `AccountService`: `users[accountHash] = user`
(`AccountService.createAccount` stores each user under its
`accountHash` key). -/
abbrev UserMap := List (String × User)

/-- Source `ConsensusService.validatePoSBlock(block)`:
`if (!block.validator) return false;`
`const validator = this.accountService.users[block.validator];`
`return !!validator && validator.getBalance('tripcoin') >= this.minStake`
`  && block.hash === block.calculateHash()`. -/
def validatePoSBlock (users : UserMap) (minStake : Rat) (b : Block) : Bool :=
  if b.validator = "" then false
  else
    match alookup users b.validator with
    | none => false
    | some u =>
      decide (minStake ≤ getBalance u "tripcoin") && decide (b.hash = calculateHash b)

/-- Source `ConsensusService.validateBlock(block)`: under PoW, check the
leading-zero prefix of the stored hash; under PoS, delegate to
`validatePoSBlock`. -/
def validateBlock (cfg : ConsensusCfg) (users : UserMap) (b : Block) : Bool :=
  match cfg.algorithm with
  | .PoW => b.hash.startsWith (zeros cfg.difficulty)
  | .PoS => validatePoSBlock users cfg.minStake b

/-- The loop body of `ConsensusService.validateChain` (PoW branch): walk
adjacent pairs, requiring linkage and block validity for each `i ≥ 1`. -/
def powWalk (cfg : ConsensusCfg) (users : UserMap) : List Block → Bool
  | b0 :: b1 :: rest =>
    ((b1.previousHash = b0.hash : Bool) && validateBlock cfg users b1)
      && powWalk cfg users (b1 :: rest)
  | _ => true

/-- Source `ConsensusService.validateChain(chain)`: the adjacent-pair walk runs
only under PoW; under every other algorithm the function returns `true`
without examining the chain. -/
def validateChain (cfg : ConsensusCfg) (users : UserMap) (chain : List Block) : Bool :=
  match cfg.algorithm with
  | .PoW => powWalk cfg users chain
  | .PoS => true

/-- The pairwise condition claimed for `validateChain`: every adjacent pair
is hash-linked and every non-genesis block passes `validateBlock`. -/
def chainOkAt (cfg : ConsensusCfg) (users : UserMap) (chain : List Block) : Prop :=
  ∀ i (h : i + 1 < chain.length),
    (chain.get ⟨i + 1, h⟩).previousHash = (chain.get ⟨i, Nat.lt_of_succ_lt h⟩).hash
      ∧ validateBlock cfg users (chain.get ⟨i + 1, h⟩) = true

/-- Source `ConsensusService.selectValidator`, the stake-accumulation walk:
`cumulative += balance; if (random <= cumulative) return exported PEM`. -/
def svWalk (r : Rat) : List User → Rat → String
  | [], _ => ""
  | u :: t, cum =>
    if r ≤ cum + getBalance u "tripcoin" then u.publicKeyPem
    else svWalk r t (cum + getBalance u "tripcoin")

/-- Source `ConsensusService.selectValidator()`: filter identities whose tripcoin
balance meets `minStake`, then a stake-weighted draw; `rand` stands for the
`Math.random()` sample in `[0, 1)`.  Returns the chosen identity's exported
public key (PEM), or `''` when no identity qualifies. -/
def selectValidator (users : UserMap) (minStake : Rat) (rand : Rat) : String :=
  let validators := (users.map Prod.snd).filter (fun u => decide (minStake ≤ getBalance u "tripcoin"))
  if validators = [] then ""
  else
    let totalStake := validators.foldl (fun s u => s + getBalance u "tripcoin") 0
    svWalk (rand * totalStake) validators 0

/-- The PoS branch of `ConsensusService.mineBlock(block)`: select a
validator and forge, or throw `'No validators available'`.  (The source's
`consensusAlgorithm` constant is `'PoS'`, so this is the branch the service
executes.) -/
def mineBlockPoS (users : UserMap) (minStake : Rat) (rand : Rat) (b : Block) :
    Except String Block :=
  let v := selectValidator users minStake rand
  if v = "" then .error "No validators available" else .ok (forgeBlock b v)

/-! ## Chain manager (`src/chain/chain.service.ts`) -/

/-- Modelled abstraction of `User.signData(data)` (ECDSA over SHA-256 in the
source): a deterministic signature token tied to the signer's key identity
and the signed message. -/
def signData (u : User) (msg : String) : String :=
  "SIG|" ++ natToStr u.keyId ++ "|" ++ msg

/-- Source `Object.values(this.accountService.users).find(user => user.publicKey`
`.export({type:'spki',format:'pem'}) === publicKeyString)`. -/
def findByPem : UserMap → String → Option User
  | [], _ => none
  | (_, u) :: t, pem => if u.publicKeyPem = pem then some u else findByPem t pem

/-- The mutable state of `ChainService`: the account registry it reads
through `AccountService`, and the chain it owns. -/
structure SysState where
  users : UserMap
  chain : List Block
deriving Repr

/-- The values the source draws from the environment during one
`createBlock` call: the two `new Date().toISOString()` reads, the
`crypto.randomUUID()` process id, and the `Math.random()` sample consumed by
PoS validator selection. -/
structure MintOracle where
  txTime : String
  blockTime : String
  processId : String
  rand : Rat

/-- Source `ChainService.createBlock([blockData, publicKeyString])` under the
configured PoS consensus: resolve the signer by exported PEM, encrypt the
payload to them, sign the plaintext, build a single-transaction block linked
to the current head, mine (forge) it, and append it only if
`validateBlock` accepts it.  Every thrown error is caught and returned as a
failure result (`success:false`), leaving the chain untouched. -/
def createBlock (st : SysState) (blockData : JsData) (publicKeyString : String)
    (o : MintOracle) : Except String Block × SysState :=
  match findByPem st.users publicKeyString with
  | none => (.error "Invalid public key", st)
  | some user =>
    match st.chain.getLast? with
    | none => (.error "TypeError: cannot read hash of undefined", st)
    | some lastBlock =>
      let tx : Transaction :=
        { processId := o.processId
          data := encryptData blockData user.keyId
          description := "Block creation"
          timestamp := o.txTime
          signature := signData user (stringify blockData) }
      let newBlock := mkBlock st.chain.length o.blockTime [tx] lastBlock.hash tx.signature
      match mineBlockPoS st.users defaultCfg.minStake o.rand newBlock with
      | .error e => (.error e, st)
      | .ok mined =>
        if validateBlock defaultCfg st.users mined then
          (.ok mined, { st with chain := st.chain ++ [mined] })
        else (.error "Invalid block", st)

/-- Source `ChainService.synchronizeChain(receivedChain, accountHash)`: replace the
local chain only when the received chain is strictly longer and
`validateChain` accepts it; the `'Received chain is invalid'` throw is caught
and surfaced as a `success:false` result.  Returns the result flag, the
message, and the resulting local chain. -/
def synchronizeChain (cfg : ConsensusCfg) (users : UserMap) (localChain : List Block)
    (receivedChain : List Block) : (Bool × String) × List Block :=
  if localChain.length < receivedChain.length then
    if validateChain cfg users receivedChain then
      ((true, "Blockchain synchronized successfully"), receivedChain)
    else ((false, "Received chain is invalid"), localChain)
  else ((false, "Received chain is not longer than the local chain"), localChain)

/-! ## Gas meter (`src/gas/gas.service.ts`) -/

/-- The operation kinds of the fixed `GAS_COSTS` table. -/
inductive OpType where
  | TRANSFER
  | TOKEN_TRANSFER
  | CONTRACT_DEPLOYMENT
  | STORAGE_WRITE
  | STORAGE_READ
  | BLOCK_WITH_REWARDS_CREATION
  | PRIVATE_BLOCK_CREATION
deriving DecidableEq, Repr

/-- The `GAS_COSTS` table. -/
def gasCostOf : OpType → Nat
  | .TRANSFER => 21000
  | .TOKEN_TRANSFER => 65000
  | .CONTRACT_DEPLOYMENT => 200000
  | .STORAGE_WRITE => 20000
  | .STORAGE_READ => 5000
  | .BLOCK_WITH_REWARDS_CREATION => 3000
  | .PRIVATE_BLOCK_CREATION => 3000

/-- Source constant `baseGasPrice = 0.000001`, as initialised in the source (the
`adjustBaseGasPrice` feedback controller is outside the modelled claims). -/
def baseGasPrice : Rat := 1 / 1000000

/-- The record returned by `GasService.calculateGasCost`. -/
structure GasQuote where
  gasUnits : Rat
  baseGasCost : Rat
  priorityFee : Rat
  total : Rat
  maxCost : Rat

/-- Source `GasService.calculateGasCost(operationType, gasLimit, gasPriorityFee)`. -/
def calculateGasCost (operationType : OpType) (gasLimit gasPriorityFee : Rat) : GasQuote :=
  let gasUnits : Rat := (gasCostOf operationType : Nat)
  let totalGasPrice := baseGasPrice + gasPriorityFee
  { gasUnits := gasUnits
    baseGasCost := gasUnits * baseGasPrice
    priorityFee := gasUnits * gasPriorityFee
    total := gasUnits * totalGasPrice
    maxCost := gasLimit * totalGasPrice }

/-- One appended `gasUsage` record (the Gas Ledger Entry). -/
structure GasEntry where
  accountHash : String
  gasUnits : Rat
  baseFee : Rat
  priorityFee : Rat
deriving DecidableEq, Repr

/-- The state `GasService.executeTransaction` reads and writes: the account
store (account hash ↦ per-currency balances, the Prisma `account`/`balance`
tables) and the append-only `gasUsage` ledger. -/
structure GasState where
  accounts : List (String × List (String × Rat))
  ledger : List GasEntry

/-- Errors surfaced by the gas layer; `opFailed` carries the operation's own
error, re-raised unchanged by the source's `throw error`. -/
inductive GasErr where
  | userNotFound
  | insufficientGas
  | opFailed (msg : String)
deriving DecidableEq, Repr

/-- The outcome of the caller-supplied `transactionCallback()`; the callback
is external code, so its outcome is an input of the model. -/
inductive CbOutcome where
  | ok
  | fail (msg : String)
deriving DecidableEq, Repr

/-- Source `AccountService.getBalance(accountHash, currency)`: missing account
throws `'User not found'`; a missing balance record reads as zero. -/
def getBalanceS (st : GasState) (accountHash currency : String) : Except GasErr Rat :=
  match alookup st.accounts accountHash with
  | none => .error .userNotFound
  | some bals => .ok ((alookup bals currency).getD 0)

/-- The balance-record update of `AccountService.updateBalance`: a missing
record is created holding `amount`, an existing one is set to
`old + amount`. -/
def updBals (bals : List (String × Rat)) (currency : String) (amount : Rat) :
    List (String × Rat) :=
  match alookup bals currency with
  | none => aset bals currency amount
  | some old => aset bals currency (old + amount)

/-- Source `AccountService.updateBalance(accountHash, currency, amount)`: missing
account throws; otherwise the account's record for the currency is updated
by `updBals`. -/
def updateBalanceS (st : GasState) (accountHash currency : String) (amount : Rat) :
    Except GasErr GasState :=
  match alookup st.accounts accountHash with
  | none => .error .userNotFound
  | some bals =>
    .ok { st with accounts := aset st.accounts accountHash (updBals bals currency amount) }

/-- Source `GasService.executeTransaction(accountHash, operationType, gasLimit,`
`gasPriorityFee, transactionCallback)`:
1. quote the cost and read the tripcoin balance — throw
   `'Insufficient TripCoin balance for gas'` when `balance < maxCost`;
2. run the callback;
3. on success debit `baseGasCost`, append a `gasUsage` record, return true;
4. on failure debit `min(gasUnits, gasLimit) × (baseGasPrice + fee)` and
   re-raise the callback's own error. -/
def executeTransaction (st : GasState) (accountHash : String) (operationType : OpType)
    (gasLimit gasPriorityFee : Rat) (cb : CbOutcome) : Except GasErr Bool × GasState :=
  let gasCost := calculateGasCost operationType gasLimit gasPriorityFee
  match getBalanceS st accountHash "tripcoin" with
  | .error e => (.error e, st)
  | .ok balance =>
    if balance < gasCost.maxCost then (.error .insufficientGas, st)
    else
      match cb with
      | .ok =>
        match updateBalanceS st accountHash "tripcoin" (-gasCost.baseGasCost) with
        | .error e => (.error e, st)
        | .ok st1 =>
          (.ok true,
            { st1 with
              ledger := st1.ledger ++
                [{ accountHash := accountHash, gasUnits := gasCost.gasUnits,
                   baseFee := gasCost.baseGasCost, priorityFee := gasCost.priorityFee }] })
      | .fail msg =>
        let gasUsed := min gasCost.gasUnits gasLimit
        let actualCost := gasUsed * (baseGasPrice + gasPriorityFee)
        match updateBalanceS st accountHash "tripcoin" (-actualCost) with
        | .error e => (.error e, st)
        | .ok st1 => (.error (.opFailed msg), st1)

/-- The tripcoin balance a state records for an account (zero when the
account or the record is missing); used to state the gas theorems. -/
def acctBal (st : GasState) (accountHash : String) : Rat :=
  match alookup st.accounts accountHash with
  | none => 0
  | some bals => (alookup bals "tripcoin").getD 0

/-! ## IEEE-754 binary64 characterisation for the gas arithmetic

JavaScript numbers are binary64 floating-point values.  The claims that are
insensitive to rounding are settled in the exact (`Rat`) model above; the
one claim that turns on an exact decimal value (`C8`: "debits exactly
0.021") is also examined against binary64 semantics, characterised exactly
below: `m / 2 ^ p` is the value the correctly rounded (round-to-nearest)
binary64 operation produces for the real quantity `num / den` when
`isNearestFP num den m p` holds, since the bound says `m / 2 ^ p` is within
strictly half a unit in the last place of `num / den` at a 53-bit
significand, which pins down the rounding uniquely (no tie). -/

/-- Statement that `m * 2 ^ (-(p : Int))` is the unique 53-bit-significand dyadic value
nearest to `num / den` (with `den > 0`): normality of the significand plus a
strict half-ulp bound, stated over the integers so it is decidable. -/
def isNearestFP (num den m : Int) (p : Nat) : Prop :=
  0 < den ∧ 2 ^ 52 ≤ m ∧ m < 2 ^ 53 ∧ 2 * (num * 2 ^ p - m * den).natAbs < den.natAbs

/-- The binary64 value of the literal `0.000001` is
`4722366482869645 × 2⁻⁷²`. -/
def jsGasPriceMant : Int := 4722366482869645

/-- The binary64 product `21000 * 0.000001` — the debit the source computes
on the success path — is `6052837899185946 × 2⁻⁵⁸`. -/
def jsDebitMant : Int := 6052837899185946

/-- The binary64 value of the literal `0.021` is `6052837899185947 × 2⁻⁵⁸`. -/
def jsLitMant : Int := 6052837899185947

/-! ## Claim C1 — `validateChain` -/

/-- The PoW pair walk agrees with the indexed pairwise condition. -/
theorem powWalk_iff (cfg : ConsensusCfg) (users : UserMap) :
    ∀ chain : List Block, powWalk cfg users chain = true ↔ chainOkAt cfg users chain := by
  intro chain
  induction chain with
  | nil =>
    constructor
    · intro _ i h
      exact absurd h (by simp)
    · intro _
      rfl
  | cons b0 rest ih =>
    cases rest with
    | nil =>
      constructor
      · intro _ i h
        exact absurd h (by simp)
      · intro _
        rfl
    | cons b1 t =>
      constructor
      · intro h i hi
        rw [show powWalk cfg users (b0 :: b1 :: t)
            = (((b1.previousHash = b0.hash : Bool) && validateBlock cfg users b1)
              && powWalk cfg users (b1 :: t)) from rfl] at h
        rw [Bool.and_eq_true, Bool.and_eq_true] at h
        obtain ⟨⟨hlink, hvalid⟩, h2⟩ := h
        cases i with
        | zero => exact ⟨of_decide_eq_true hlink, hvalid⟩
        | succ j =>
          have hj : j + 1 < (b1 :: t).length := by
            simpa using Nat.lt_of_succ_lt_succ hi
          exact (ih.mp h2) j hj
      · intro h
        have hhead := h 0 (by simp)
        have htail : chainOkAt cfg users (b1 :: t) := by
          intro j hj
          exact h (j + 1) (by simpa using Nat.succ_lt_succ hj)
        rw [show powWalk cfg users (b0 :: b1 :: t)
            = (((b1.previousHash = b0.hash : Bool) && validateBlock cfg users b1)
              && powWalk cfg users (b1 :: t)) from rfl]
        rw [Bool.and_eq_true, Bool.and_eq_true]
        exact ⟨⟨decide_eq_true hhead.1, hhead.2⟩, ih.mpr htail⟩

/-- Claim C1 (amended): under PoW, `validateChain(chain)` returns `true`
exactly when every adjacent pair satisfies
`chain[i].previousHash == chain[i-1].hash` and `validateBlock(chain[i])`;
under PoS — the algorithm the source configures — `validateChain` returns
`true` unconditionally, performing no check at all. -/
theorem validateChain_spec :
    (∀ (d : Nat) (ms : Rat) (users : UserMap) (chain : List Block),
        validateChain ⟨Algo.PoW, d, ms⟩ users chain = true
          ↔ chainOkAt ⟨Algo.PoW, d, ms⟩ users chain)
    ∧ (∀ (d : Nat) (ms : Rat) (users : UserMap) (chain : List Block),
        validateChain ⟨Algo.PoS, d, ms⟩ users chain = true) := by
  constructor
  · intro d ms users chain
    exact powWalk_iff ⟨Algo.PoW, d, ms⟩ users chain
  · intro d ms users chain
    rfl

/-- First block of the C1 counterexample chain. -/
def c1b0 : Block :=
  { index := 0, timestamp := "t0", transactions := [], previousHash := "0",
    hash := "A", nonce := 0, signature := "", validator := "" }

/-- Second block of the C1 counterexample chain: its `previousHash` does not
match the first block's `hash`. -/
def c1b1 : Block :=
  { index := 1, timestamp := "t1", transactions := [], previousHash := "B",
    hash := "C", nonce := 0, signature := "", validator := "" }

/-- Claim C1 (counterexample): under the configured PoS algorithm,
`validateChain` accepts a two-block chain whose adjacent pair is not
hash-linked, so the claimed equivalence fails. -/
theorem validateChain_pos_counterexample :
    validateChain defaultCfg [] [c1b0, c1b1] = true
      ∧ ¬ chainOkAt defaultCfg [] [c1b0, c1b1] := by
  refine ⟨rfl, fun h => ?_⟩
  exact absurd (h 0 (by simp)).1 (by decide)

/-! ## Claim C2 — PoS block validation -/

/-- The behaviour Claim C2 states for `validateBlock` under PoS: a non-empty
validator, some registered identity whose exported public key equals
`block.validator` and whose tripcoin balance meets `minStake`, and a stored
hash that matches a fresh recomputation. -/
def posClaimValid (users : UserMap) (minStake : Rat) (b : Block) : Prop :=
  b.validator ≠ ""
    ∧ (∃ p ∈ users, (Prod.snd p).publicKeyPem = b.validator
        ∧ minStake ≤ getBalance (Prod.snd p) "tripcoin")
    ∧ b.hash = calculateHash b

/-- The staked identity of the C2 failing input, registered under its
account hash (`users[user.accountHash] = user`, as
`AccountService.createAccount` does) while its exported public key — the
address `selectValidator` writes into `block.validator` — is a different
string. -/
def c2user : User :=
  { accountHash := "acct1", publicKeyPem := "PEM1", keyId := 1,
    balances := [("tripcoin", (1500 : Rat))] }

/-- The account registry holding `c2user`. -/
def c2users : UserMap := [("acct1", c2user)]

/-- A PoS block naming `c2user`'s exported public key as validator, before
its hash is filled in. -/
def c2base : Block :=
  { index := 1, timestamp := "T1", transactions := [], previousHash := "0",
    hash := "", nonce := 0, signature := "", validator := "PEM1" }

/-- The C2 failing input: validator set to the staked identity's exported
public key, hash freshly computed. -/
def c2block : Block := { c2base with hash := calculateHash c2base }

/-- Claim C2: the code rejects a block that the claim accepts.
`validatePoSBlock` reads `users[block.validator]`, but the registry is keyed
by `accountHash` while `block.validator` carries the exported public key
(the value `selectValidator` returns), so the lookup misses and the block is
rejected even though a registered identity with that exported key holds
`1500 ≥ 1000 = minStake` tripcoin and the hash is fresh. -/
theorem validatePoSBlock_addressing_bug :
    validatePoSBlock c2users defaultCfg.minStake c2block = false
      ∧ posClaimValid c2users defaultCfg.minStake c2block := by
  refine ⟨rfl, by decide, ⟨("acct1", c2user), by simp [c2users], rfl, ?_⟩, rfl⟩
  show (1000 : Rat) ≤ getBalance c2user "tripcoin"
  norm_num [getBalance, c2user, alookup]

/-! ## Claim C3 — fork choice in `synchronizeChain` -/

/-- Claim C3: `synchronizeChain` succeeds exactly when the received chain is
strictly longer and `validateChain` accepts it; on success the local chain
becomes the received chain, on every failure it is unchanged (and the
failure is a returned result, not an exception). -/
theorem synchronizeChain_spec (cfg : ConsensusCfg) (users : UserMap)
    (localChain receivedChain : List Block) :
    ((synchronizeChain cfg users localChain receivedChain).1.1 = true
        ↔ localChain.length < receivedChain.length
          ∧ validateChain cfg users receivedChain = true)
    ∧ ((synchronizeChain cfg users localChain receivedChain).1.1 = true
        → (synchronizeChain cfg users localChain receivedChain).2 = receivedChain)
    ∧ ((synchronizeChain cfg users localChain receivedChain).1.1 = false
        → (synchronizeChain cfg users localChain receivedChain).2 = localChain) := by
  unfold synchronizeChain
  by_cases hl : localChain.length < receivedChain.length
  · by_cases hv : validateChain cfg users receivedChain = true
    · simp [hl, hv]
    · simp [hl, hv]
  · simp [hl]

/-- A one-block candidate chain used to instantiate the C3 statement. -/
def c3blk : Block :=
  { index := 0, timestamp := "s0", transactions := [], previousHash := "0",
    hash := "G", nonce := 0, signature := "", validator := "" }

/-- Claim C3 (witness): a valid, strictly longer candidate replaces the
local chain. -/
theorem synchronizeChain_spec_witness :
    (synchronizeChain defaultCfg [] [] [c3blk]).1.1 = true
      ∧ (synchronizeChain defaultCfg [] [] [c3blk]).2 = [c3blk] := by
  have h := synchronizeChain_spec defaultCfg [] [] [c3blk]
  have hs : (synchronizeChain defaultCfg [] [] [c3blk]).1.1 = true :=
    h.1.mpr ⟨by decide, rfl⟩
  exact ⟨hs, h.2.1 hs⟩

/-! ## Claim C4 — `createBlock` appends only validated blocks -/

/-- Claim C4: a `createBlock` call appends a block exactly when consensus
validation accepts the mined block; any failure — unknown key, mining
failure, or consensus rejection — returns a failure result and leaves the
whole state (in particular the chain) exactly as it was. -/
theorem createBlock_append_spec (st : SysState) (blockData : JsData)
    (publicKeyString : String) (o : MintOracle) :
    (∀ b, (createBlock st blockData publicKeyString o).1 = .ok b
        → (createBlock st blockData publicKeyString o).2.chain = st.chain ++ [b]
          ∧ validateBlock defaultCfg st.users b = true)
    ∧ (∀ e, (createBlock st blockData publicKeyString o).1 = .error e
        → (createBlock st blockData publicKeyString o).2 = st) := by
  unfold createBlock
  split
  · exact ⟨fun b hb => by simp at hb, fun e he => rfl⟩
  · split
    · exact ⟨fun b hb => by simp at hb, fun e he => rfl⟩
    · dsimp only
      split
      · exact ⟨fun b hb => by simp at hb, fun e2 he => rfl⟩
      · split
        · rename_i mined heqm hv
          constructor
          · intro b hb
            simp only [Prod.fst] at hb
            have hbm : mined = b := by
              simpa using hb
            subst hbm
            exact ⟨rfl, hv⟩
          · intro e he
            simp at he
        · constructor
          · intro b hb
            simp at hb
          · intro e he
            rfl

/-- Claim C4 (witness): a call whose signer lookup fails returns the failure
result and leaves the state untouched. -/
theorem createBlock_append_spec_witness :
    (createBlock ⟨[], []⟩ JsData.jnull "K" ⟨"t1", "t2", "p", 0⟩).1
        = Except.error "Invalid public key"
      ∧ (createBlock ⟨[], []⟩ JsData.jnull "K" ⟨"t1", "t2", "p", 0⟩).2 = ⟨[], []⟩ := by
  have h := createBlock_append_spec ⟨[], []⟩ JsData.jnull "K" ⟨"t1", "t2", "p", 0⟩
  exact ⟨rfl, h.2 "Invalid public key" rfl⟩

/-! ## Claim C5 — `User.updateBalance` -/

/-- Claim C5 (amended): `updateBalance` posts the signed amount
unconditionally — an absent (or zero) entry is first initialised to zero,
then `amount` is added; no insufficient-funds check exists, so a debit may
drive the balance negative. -/
theorem updateBalance_adds_unconditionally (u : User) (currency : String) (amount : Rat) :
    getBalance (updateBalance u currency amount) currency
      = getBalance u currency + amount := by
  unfold getBalance updateBalance
  cases hb : alookup u.balances currency with
  | none => simp [alookup_aset_self, hb]
  | some b =>
    by_cases h0 : b = 0
    · simp [alookup_aset_self, hb, h0]
    · simp [alookup_aset_self, hb, h0]

/-- The C5 counterexample identity, holding 2 tripcoin. -/
def c5user : User :=
  { accountHash := "h5", publicKeyPem := "P5", keyId := 5,
    balances := [("tripcoin", (2 : Rat))] }

/-- Claim C5 (counterexample): debiting 5 tripcoin from a balance of 2 does
not fail and does not leave the balance unchanged — it yields −3, a negative
balance, because `updateBalance` performs no insufficient-funds check. -/
theorem updateBalance_negative_counterexample :
    getBalance (updateBalance c5user "tripcoin" (-5)) "tripcoin" = -3
      ∧ getBalance (updateBalance c5user "tripcoin" (-5)) "tripcoin" < 0 := by
  have h : getBalance (updateBalance c5user "tripcoin" (-5)) "tripcoin" = -3 := by
    show getBalance (updateBalance c5user "tripcoin" (-5)) "tripcoin" = -3
    norm_num [getBalance, updateBalance, c5user, alookup, aset]
  exact ⟨h, by rw [h]; norm_num⟩

/-! ## Claim C9 — envelope round-trip -/

/-- Claim C9 (counterexample): the round-trip is not the identity on the
plaintext string `"1"` — the decrypt-side `JSON.parse` succeeds and the
caller receives the number `1` instead of the string `"1"`. -/
theorem decrypt_encrypt_not_identity :
    decryptData (encryptData (JsData.jstr "1") 7) 7 ≠ Except.ok (JsData.jstr "1")
      ∧ decryptData (encryptData (JsData.jstr "1") 7) 7 = Except.ok (JsData.jnum 1) := by
  exact ⟨by decide, rfl⟩

/-- Claim C9 (amended): for every matching key pair,
`decrypt(encrypt(m, pub), priv) == m` holds for every non-string plaintext
of the modelled fragment, and for every string plaintext whose first
non-whitespace character cannot begin a JSON value (the `notJsonStart`
certificate, which forces real `JSON.parse` to throw, so the decrypt side
falls back to the raw string); a string that parses as JSON is returned as
the parsed value instead. -/
theorem decrypt_encrypt_roundtrip (d : JsData) (k : Nat) (h : roundtripSafe d) :
    decryptData (encryptData d k) k = Except.ok d := by
  cases d with
  | jstr s =>
    have hn : jsonParse s = none := jsonParse_of_notJsonStart s h
    simp [encryptData, decryptData, hn]
  | jnull =>
    simp [encryptData, decryptData, jsonParse_stringify JsData.jnull (fun s => by simp)]
  | jbool b =>
    simp [encryptData, decryptData, jsonParse_stringify (JsData.jbool b) (fun s => by simp)]
  | jnum n =>
    simp [encryptData, decryptData, jsonParse_stringify (JsData.jnum n) (fun s => by simp)]

/-- Claim C9 (witness): the string `"hello"` cannot begin a JSON value, and
it round-trips unchanged. -/
theorem decrypt_encrypt_roundtrip_witness :
    notJsonStart "hello" = true
      ∧ decryptData (encryptData (JsData.jstr "hello") 3) 3
          = Except.ok (JsData.jstr "hello") :=
  ⟨by decide,
    decrypt_encrypt_roundtrip (JsData.jstr "hello") 3
      (show notJsonStart "hello" = true by decide)⟩

/-! ## Gas-meter helper lemmas -/

theorem alookup_updBals (bals : List (String × Rat)) (c : String) (amount : Rat) :
    (alookup (updBals bals c amount) c).getD 0 = (alookup bals c).getD 0 + amount := by
  unfold updBals
  cases hb : alookup bals c with
  | none => simp [alookup_aset_self, hb]
  | some old => simp [alookup_aset_self, hb]

/-- Evaluation of `executeTransaction` on the insufficient-balance path. -/
theorem execInsufficientEq (st : GasState) (acct : String) (op : OpType)
    (gasLimit fee : Rat) (cb : CbOutcome) (bals : List (String × Rat))
    (hacct : alookup st.accounts acct = some bals)
    (hlt : (alookup bals "tripcoin").getD 0 < (calculateGasCost op gasLimit fee).maxCost) :
    executeTransaction st acct op gasLimit fee cb = (.error .insufficientGas, st) := by
  unfold executeTransaction getBalanceS
  rw [hacct]
  dsimp only
  rw [if_pos hlt]

/-- Evaluation of `executeTransaction` on the callback-failure path. -/
theorem execFailEq (st : GasState) (acct : String) (op : OpType)
    (gasLimit fee : Rat) (msg : String) (bals : List (String × Rat))
    (hacct : alookup st.accounts acct = some bals)
    (hge : (calculateGasCost op gasLimit fee).maxCost ≤ (alookup bals "tripcoin").getD 0) :
    executeTransaction st acct op gasLimit fee (.fail msg)
      = (.error (.opFailed msg),
         { st with
           accounts := aset st.accounts acct
             (updBals bals "tripcoin"
               (-(min ((gasCostOf op : Nat) : Rat) gasLimit * (baseGasPrice + fee)))) }) := by
  have hnotlt : ¬ ((alookup bals "tripcoin").getD 0
      < (calculateGasCost op gasLimit fee).maxCost) := not_lt.mpr hge
  unfold executeTransaction getBalanceS updateBalanceS
  rw [hacct]
  dsimp only
  rw [if_neg hnotlt]
  rfl

/-- Evaluation of `executeTransaction` on the callback-success path. -/
theorem execOkEq (st : GasState) (acct : String) (op : OpType)
    (gasLimit fee : Rat) (bals : List (String × Rat))
    (hacct : alookup st.accounts acct = some bals)
    (hge : (calculateGasCost op gasLimit fee).maxCost ≤ (alookup bals "tripcoin").getD 0) :
    executeTransaction st acct op gasLimit fee .ok
      = (.ok true,
         { accounts := aset st.accounts acct
             (updBals bals "tripcoin" (-(((gasCostOf op : Nat) : Rat) * baseGasPrice)))
           ledger := st.ledger ++
             [{ accountHash := acct,
                gasUnits := ((gasCostOf op : Nat) : Rat),
                baseFee := ((gasCostOf op : Nat) : Rat) * baseGasPrice,
                priorityFee := ((gasCostOf op : Nat) : Rat) * fee }] }) := by
  have hnotlt : ¬ ((alookup bals "tripcoin").getD 0
      < (calculateGasCost op gasLimit fee).maxCost) := not_lt.mpr hge
  unfold executeTransaction getBalanceS updateBalanceS
  rw [hacct]
  dsimp only
  rw [if_neg hnotlt]
  rfl

/-! ## Claim C6 — insufficient gas rejected before the operation runs -/

/-- Claim C6: when the account's tripcoin balance is strictly below
`maxCost = gasLimit × (basePrice + priorityFee)`, `executeTransaction` fails
with the insufficient-gas error and returns the state unchanged — no debit,
no ledger entry — and the result does not depend on the callback at all
(the callback is never invoked). -/
theorem executeTransaction_insufficient_gas (st : GasState) (acct : String)
    (op : OpType) (gasLimit fee : Rat) (bals : List (String × Rat))
    (hacct : alookup st.accounts acct = some bals)
    (hlt : (alookup bals "tripcoin").getD 0 < (calculateGasCost op gasLimit fee).maxCost) :
    ∀ cb, executeTransaction st acct op gasLimit fee cb
        = (.error .insufficientGas, st) := by
  intro cb
  exact execInsufficientEq st acct op gasLimit fee cb bals hacct hlt

/-- The C6/C10 witness state: one account `"A"` holding no tripcoin. -/
def c6st : GasState := { accounts := [("A", [("tripcoin", (0 : Rat))])], ledger := [] }

/-- Claim C6 (witness): a zero-balance account requesting a transfer with
`gasLimit = 21000`, zero priority fee, is rejected with the state
unchanged. -/
theorem executeTransaction_insufficient_gas_witness :
    (alookup [("tripcoin", (0 : Rat))] "tripcoin").getD 0
        < (calculateGasCost OpType.TRANSFER 21000 0).maxCost
      ∧ executeTransaction c6st "A" OpType.TRANSFER 21000 0 CbOutcome.ok
          = (.error .insufficientGas, c6st) := by
  have hlt : (alookup [("tripcoin", (0 : Rat))] "tripcoin").getD 0
      < (calculateGasCost OpType.TRANSFER 21000 0).maxCost := by
    norm_num [calculateGasCost, alookup, baseGasPrice, gasCostOf]
  exact ⟨hlt,
    executeTransaction_insufficient_gas c6st "A" OpType.TRANSFER 21000 0 _ rfl hlt
      CbOutcome.ok⟩

/-! ## Claim C7 — failure path: partial charge, no ledger entry, error re-raised -/

/-- Claim C7: when the callback throws, the account is debited exactly
`min(gasUnits, gasLimit) × (basePrice + priorityFee)`, no gas ledger entry
is appended, and the callback's own error is re-raised unchanged. -/
theorem executeTransaction_failure_path (st : GasState) (acct : String)
    (op : OpType) (gasLimit fee : Rat) (msg : String) (bals : List (String × Rat))
    (hacct : alookup st.accounts acct = some bals)
    (hge : (calculateGasCost op gasLimit fee).maxCost ≤ (alookup bals "tripcoin").getD 0) :
    (executeTransaction st acct op gasLimit fee (.fail msg)).1 = .error (.opFailed msg)
    ∧ (executeTransaction st acct op gasLimit fee (.fail msg)).2.ledger = st.ledger
    ∧ acctBal (executeTransaction st acct op gasLimit fee (.fail msg)).2 acct
        = acctBal st acct
          - min ((gasCostOf op : Nat) : Rat) gasLimit * (baseGasPrice + fee) := by
  rw [execFailEq st acct op gasLimit fee msg bals hacct hge]
  refine ⟨rfl, rfl, ?_⟩
  simp [acctBal, alookup_aset_self, hacct, alookup_updBals]
  ring

/-- The C7/C8 witness state: one account `"A"` holding 1 tripcoin. -/
def c7st : GasState := { accounts := [("A", [("tripcoin", (1 : Rat))])], ledger := [] }

/-- Claim C7 (witness): with balance 1, `gasLimit = 21000` and zero priority
fee, a failing transfer re-raises the callback error, appends nothing, and
debits `21000 × 0.000001 = 0.021` (the partial-cost formula with
`gasUnits ≤ gasLimit`). -/
theorem executeTransaction_failure_path_witness :
    (calculateGasCost OpType.TRANSFER 21000 0).maxCost
        ≤ (alookup [("tripcoin", (1 : Rat))] "tripcoin").getD 0
      ∧ (executeTransaction c7st "A" OpType.TRANSFER 21000 0 (.fail "boom")).1
          = .error (.opFailed "boom")
      ∧ (executeTransaction c7st "A" OpType.TRANSFER 21000 0 (.fail "boom")).2.ledger
          = c7st.ledger := by
  have hge : (calculateGasCost OpType.TRANSFER 21000 0).maxCost
      ≤ (alookup [("tripcoin", (1 : Rat))] "tripcoin").getD 0 := by
    norm_num [calculateGasCost, alookup, baseGasPrice, gasCostOf]
  have h := executeTransaction_failure_path c7st "A" OpType.TRANSFER 21000 0 "boom" _ rfl hge
  exact ⟨hge, h.1, h.2.1⟩

/-! ## Claim C8 — success path: base cost debited, one ledger entry -/

/-- Claim C8 (amended): on callback success the account is debited exactly
`baseCost = gasUnits × basePrice` and exactly one gas ledger entry is
appended; in exact arithmetic the transfer debit at
`basePrice = 0.000001` is `21000 × 0.000001 = 21/1000` (the program's own
binary64 arithmetic produces the neighbouring double instead — see the
counterexample). -/
theorem executeTransaction_success_path (st : GasState) (acct : String)
    (op : OpType) (gasLimit fee : Rat) (bals : List (String × Rat))
    (hacct : alookup st.accounts acct = some bals)
    (hge : (calculateGasCost op gasLimit fee).maxCost ≤ (alookup bals "tripcoin").getD 0) :
    (executeTransaction st acct op gasLimit fee .ok).1 = .ok true
    ∧ (executeTransaction st acct op gasLimit fee .ok).2.ledger
        = st.ledger ++
          [{ accountHash := acct,
             gasUnits := ((gasCostOf op : Nat) : Rat),
             baseFee := ((gasCostOf op : Nat) : Rat) * baseGasPrice,
             priorityFee := ((gasCostOf op : Nat) : Rat) * fee }]
    ∧ acctBal (executeTransaction st acct op gasLimit fee .ok).2 acct
        = acctBal st acct - ((gasCostOf op : Nat) : Rat) * baseGasPrice
    ∧ ((gasCostOf OpType.TRANSFER : Nat) : Rat) * baseGasPrice = 21 / 1000 := by
  rw [execOkEq st acct op gasLimit fee bals hacct hge]
  refine ⟨rfl, rfl, ?_, by norm_num [gasCostOf, baseGasPrice]⟩
  simp [acctBal, alookup_aset_self, hacct, alookup_updBals]
  ring

/-- Claim C8 (witness): with balance 1, a successful transfer at
`gasLimit = 21000`, zero fee, debits the base cost and appends the entry. -/
theorem executeTransaction_success_path_witness :
    (calculateGasCost OpType.TRANSFER 21000 0).maxCost
        ≤ (alookup [("tripcoin", (1 : Rat))] "tripcoin").getD 0
      ∧ (executeTransaction c7st "A" OpType.TRANSFER 21000 0 .ok).1 = .ok true
      ∧ acctBal (executeTransaction c7st "A" OpType.TRANSFER 21000 0 .ok).2 "A"
          = acctBal c7st "A" - ((gasCostOf OpType.TRANSFER : Nat) : Rat) * baseGasPrice := by
  have hge : (calculateGasCost OpType.TRANSFER 21000 0).maxCost
      ≤ (alookup [("tripcoin", (1 : Rat))] "tripcoin").getD 0 := by
    norm_num [calculateGasCost, alookup, baseGasPrice, gasCostOf]
  have h := executeTransaction_success_path c7st "A" OpType.TRANSFER 21000 0 _ rfl hge
  exact ⟨hge, h.1, h.2.2.1⟩

/-- Claim C8 (counterexample): in the binary64 arithmetic the source
actually runs, the success-path debit for `gasUnits = GAS_COSTS.TRANSFER =`
`21000` at `basePrice = 0.000001` is `6052837899185946 × 2⁻⁵⁸ ≈`
`0.020999999999999998`, which is neither the real number `21/1000` nor the
binary64 value of the literal `0.021` (they differ in the last significand
bit), so the operation does not debit exactly `0.021`. -/
theorem gas_debit_not_exactly_0021 :
    gasCostOf OpType.TRANSFER = 21000
    ∧ isNearestFP 1 1000000 jsGasPriceMant 72
    ∧ isNearestFP (21000 * jsGasPriceMant) (2 ^ 72) jsDebitMant 58
    ∧ isNearestFP 21 1000 jsLitMant 58
    ∧ jsDebitMant ≠ jsLitMant
    ∧ jsDebitMant * 1000 ≠ 21 * 2 ^ 58 := by
  refine ⟨rfl, ⟨by decide, by decide, by decide, by decide⟩,
    ⟨by decide, by decide, by decide, by decide⟩,
    ⟨by decide, by decide, by decide, by decide⟩, by decide, by decide⟩

/-! ## Claim C10 — the balance never goes negative -/

/-- Claim C10: starting from a non-negative tripcoin balance, with a
non-negative priority fee and `gasLimit ≥ gasUnits`, the balance is still
non-negative after `executeTransaction`, on every path: each possible debit
is bounded by the `maxCost` that the entry check compared against the
balance. -/
theorem executeTransaction_balance_nonneg (st : GasState) (acct : String)
    (op : OpType) (gasLimit fee : Rat) (cb : CbOutcome) (bals : List (String × Rat))
    (hacct : alookup st.accounts acct = some bals)
    (hbal : 0 ≤ (alookup bals "tripcoin").getD 0)
    (hfee : 0 ≤ fee)
    (hlim : ((gasCostOf op : Nat) : Rat) ≤ gasLimit) :
    0 ≤ acctBal (executeTransaction st acct op gasLimit fee cb).2 acct := by
  have hu0 : (0 : Rat) ≤ ((gasCostOf op : Nat) : Rat) := by positivity
  have hbp : (0 : Rat) ≤ baseGasPrice := by norm_num [baseGasPrice]
  have hlim0 : (0 : Rat) ≤ gasLimit := le_trans hu0 hlim
  have hmc : (calculateGasCost op gasLimit fee).maxCost
      = gasLimit * (baseGasPrice + fee) := rfl
  by_cases hlt : (alookup bals "tripcoin").getD 0 < (calculateGasCost op gasLimit fee).maxCost
  · rw [execInsufficientEq st acct op gasLimit fee cb bals hacct hlt]
    simpa [acctBal, hacct] using hbal
  · have hge := not_lt.mp hlt
    have hmax : gasLimit * (baseGasPrice + fee) ≤ (alookup bals "tripcoin").getD 0 :=
      hmc ▸ hge
    cases cb with
    | ok =>
      rw [execOkEq st acct op gasLimit fee bals hacct hge]
      have hstep : ((gasCostOf op : Nat) : Rat) * baseGasPrice
          ≤ gasLimit * (baseGasPrice + fee) := by
        calc ((gasCostOf op : Nat) : Rat) * baseGasPrice
            ≤ gasLimit * baseGasPrice := mul_le_mul_of_nonneg_right hlim hbp
          _ ≤ gasLimit * (baseGasPrice + fee) := by
              apply mul_le_mul_of_nonneg_left _ hlim0
              linarith
      simp only [acctBal, alookup_aset_self, alookup_updBals, hacct]
      linarith
    | fail msg =>
      rw [execFailEq st acct op gasLimit fee msg bals hacct hge]
      have hstep : min ((gasCostOf op : Nat) : Rat) gasLimit * (baseGasPrice + fee)
          ≤ gasLimit * (baseGasPrice + fee) := by
        apply mul_le_mul_of_nonneg_right (min_le_right _ _)
        linarith
      simp only [acctBal, alookup_aset_self, alookup_updBals, hacct]
      linarith

/-- Claim C10 (witness): the zero-balance account stays non-negative through
a rejected transfer request. -/
theorem executeTransaction_balance_nonneg_witness :
    (0 : Rat) ≤ (alookup [("tripcoin", (0 : Rat))] "tripcoin").getD 0
      ∧ 0 ≤ acctBal (executeTransaction c6st "A" OpType.TRANSFER 21000 0 CbOutcome.ok).2 "A" := by
  have hbal : (0 : Rat) ≤ (alookup [("tripcoin", (0 : Rat))] "tripcoin").getD 0 := by
    norm_num [alookup]
  refine ⟨hbal, ?_⟩
  apply executeTransaction_balance_nonneg c6st "A" OpType.TRANSFER 21000 0 CbOutcome.ok _ rfl hbal
  · norm_num
  · norm_num [gasCostOf]

end TripCode
